import Mathlib

/-!
Verification of the enhanced-3gpp-pmparser core (src/pmparser/core.py)
against its natural-language specification.

The Python module is shallowly embedded: the XML tree is modelled by the
view the code actually takes of it (`findall`/`find` results become list
and option fields), Python values are modelled by `Option`/`Rat`/`String`,
exceptions by `Except`, and the file system by a record of functions.
The `ProcessPoolExecutor` dispatch in `PMParser.process_files` is modelled
at two levels, both sequentially in submission order.  `process_files`
and `collectResults` model the collection LOOP as written: what the loop
does with whatever result each awaited future delivers, taking that
delivery to be the record list computed by the body of
`XMLProcessor.process_file` (per-file pure, no shared state, properties
insensitive to completion order).  `process_files_run`,
`collectFutures` and `futureResult` model what the dispatch ACTUALLY
delivers: `process_file` is declared `async def` yet submitted to a
process pool, so each worker returns an unrun coroutine object whose
pickling back to the parent fails, every awaited future raises a
`TypeError`, and the aggregate is always empty.  Python `float()` is
modelled over exact rationals on finite decimal notation (`inf`/`nan` and
underscore separators are out of scope of the claims); Python `int()` is
modelled with whitespace stripping, an optional sign and ASCII digits.
-/

deriving instance DecidableEq for Except

namespace PM

/-- Strip leading and trailing whitespace characters, modelling the
stripping Python `int()` and `float()` perform on their argument. -/
def stripChars (cs : List Char) : List Char :=
  ((cs.dropWhile Char.isWhitespace).reverse.dropWhile Char.isWhitespace).reverse

/-- Numeric value of a list of decimal digit characters. -/
def digitsVal (cs : List Char) : Nat :=
  cs.foldl (fun a c => a * 10 + (c.toNat - 48)) 0

/-- Digit-run part of Python `int()`: all characters must be decimal
digits and there must be at least one. -/
def pyIntDigits (cs : List Char) : Option Int :=
  if cs.isEmpty || !(cs.all Char.isDigit) then none else some (digitsVal cs)

/-- Models Python `int(s)` on a string: strip whitespace, optional sign,
nonempty run of decimal digits; `none` models the `ValueError`. -/
def pyInt? (s : String) : Option Int :=
  match stripChars s.toList with
  | '+' :: cs => pyIntDigits cs
  | '-' :: cs => (pyIntDigits cs).map Neg.neg
  | cs => pyIntDigits cs

/-- Mantissa value of an integer digit part and a fractional digit part. -/
def mantissaVal (ip fp : List Char) : Rat :=
  (digitsVal ip : Rat) + (digitsVal fp : Rat) / ((10 : Rat) ^ fp.length)

/-- Exponent digits of a float literal: nonempty, all decimal digits. -/
def expDigits (m : Rat) (sgn : Int) (ds : List Char) : Option Rat :=
  if ds.isEmpty || !(ds.all Char.isDigit) then none
  else some (m * (10 : Rat) ^ (sgn * (digitsVal ds : Int)))

/-- Optionally signed exponent part after the `e`. -/
def expPart (m : Rat) (cs : List Char) : Option Rat :=
  match cs with
  | '+' :: ds => expDigits m 1 ds
  | '-' :: ds => expDigits m (-1) ds
  | ds => expDigits m 1 ds

/-- After the mantissa: either nothing or an exponent marker. -/
def pyFloatExp (m : Rat) : List Char → Option Rat
  | [] => some m
  | 'e' :: rest => expPart m rest
  | 'E' :: rest => expPart m rest
  | _ => none

/-- Unsigned core of Python `float()` on finite decimal notation:
digits, optional decimal point with digits, optional exponent. -/
def pyFloatCore (cs : List Char) : Option Rat :=
  let ip := cs.takeWhile Char.isDigit
  let rest1 := cs.dropWhile Char.isDigit
  match rest1 with
  | '.' :: rest2 =>
    let fp := rest2.takeWhile Char.isDigit
    let rest3 := rest2.dropWhile Char.isDigit
    if ip.isEmpty && fp.isEmpty then none
    else pyFloatExp (mantissaVal ip fp) rest3
  | _ =>
    if ip.isEmpty then none
    else pyFloatExp (mantissaVal ip []) rest1

/-- Models Python `float(s)` on finite decimal notation, as an exact
rational; `none` models the `ValueError`. -/
def pyFloat? (s : String) : Option Rat :=
  match stripChars s.toList with
  | '+' :: cs => pyFloatCore cs
  | '-' :: cs => (pyFloatCore cs).map Neg.neg
  | cs => pyFloatCore cs

/-- Truthiness of a Python optional-string value: `None` and the empty
string are falsy. -/
def strTruthy : Option String → Bool
  | none => false
  | some s => !(s == "")

/-- Atom of a compiled regular expression: a literal character or the
any-character class written as a dot. -/
inductive RAtom where
  | lit : Char → RAtom
  | dot : RAtom
deriving DecidableEq

/-- Token of a compiled regular expression: a bare atom or an atom under
a Kleene star. -/
inductive RTok where
  | atom : RAtom → RTok
  | star : RAtom → RTok
deriving DecidableEq

/-- Whether a single regex atom accepts a character.  The dot accepts
every character except a newline, as in `re` without `DOTALL`. -/
def atomMatches : RAtom → Char → Bool
  | RAtom.lit c, x => x == c
  | RAtom.dot, x => !(x == '\n')

/-- Models acceptance by `re.compile(pattern).match(s)`: does some
PREFIX of `s` match the token list?  `re.match` anchors at the start of
the string only, so the empty token list accepts any remainder.  The
star case enumerates how many characters the starred atom consumes. -/
def rmatch : List RTok → List Char → Bool
  | [], _ => true
  | RTok.atom _ :: _, [] => false
  | RTok.atom a :: ts, x :: xs => atomMatches a x && rmatch ts xs
  | RTok.star a :: ts, s =>
      (List.range (s.length + 1)).any fun n =>
        (s.take n).all (atomMatches a) && rmatch ts (s.drop n)

/-- Compiled form of the source constant `DEFAULT_FILE_PATTERN`, the
regular expression written in core.py line 29 as a raw string with the
letter A, a dotted star, an escaped dot and the letters x, m, l. -/
def DEFAULT_FILE_PATTERN : List RTok :=
  [RTok.atom (RAtom.lit 'A'), RTok.star RAtom.dot,
   RTok.atom (RAtom.lit '.'), RTok.atom (RAtom.lit 'x'),
   RTok.atom (RAtom.lit 'm'), RTok.atom (RAtom.lit 'l')]

/-- XML `r` element as the code views it: its `p` attribute and text. -/
structure RElem where
  p : Option String
  text : Option String
deriving DecidableEq

/-- XML `measValue` element: its `measObjLdn` attribute and the list of
its `r` descendants in document order. -/
structure MeasValue where
  measObjLdn : Option String
  rs : List RElem
deriving DecidableEq

/-- XML `measType` element: its `p` attribute and text. -/
structure MeasType where
  p : Option String
  text : Option String
deriving DecidableEq

/-- XML `granPeriod` element: its `endTime` attribute. -/
structure GranPeriod where
  endTime : Option String
deriving DecidableEq

/-- XML `measInfo` element as the code views it: its `measInfoId`
attribute, the first `granPeriod` descendant found by `find` (or none),
and the `measType` and `measValue` descendants in document order. -/
structure MeasInfo where
  measInfoId : Option String
  granPeriod : Option GranPeriod
  measTypes : List MeasType
  measValues : List MeasValue
deriving DecidableEq

/-- Parsed XML document: the `measInfo` elements found from the root. -/
structure XMLFile where
  measInfos : List MeasInfo
deriving DecidableEq

/-- The source dataclass `ParserConfig`.  `file_pattern` holds the
compiled form of the configured pattern (the code compiles the string
with `re.compile` before use); `output_type` and `num_workers` do not
influence the modelled behavior but are kept for fidelity. -/
structure ParserConfig where
  single_file : Option String := none
  directory : Option String := none
  file_pattern : List RTok := DEFAULT_FILE_PATTERN
  measInfoId : Option String := none
  p_value : Option Int := none
  objLdn_list : List String := []
  output_type : String := "excel"
  num_workers : Nat := 1

/-- Messages carried by the source exception class `PMError`, one
constructor per f-string format in core.py, each carrying the
interpolated parts. -/
inductive PMMsg where
  | fileNotFound : String → PMMsg
  | dirNotFound : String → PMMsg
  | noInputSpecified : PMMsg
  | noFilesFound : PMMsg
  | failedToProcess : String → String → PMMsg
deriving DecidableEq

/-- Value stored in an emitted record, modelling the Python value bound
at core.py lines 102-105: a float on successful parse, otherwise the
raw `r.text`, which is `None` for an empty element. -/
inductive PyValue where
  | num : Rat → PyValue
  | str : String → PyValue
  | none : PyValue
deriving DecidableEq

/-- The dictionary appended per reading at core.py lines 107-114. -/
structure PMRecord where
  endTime : Option String
  measInfoId : Option String
  measObjLdn : Option String
  p : Int
  value : PyValue
  measType : Option String
deriving DecidableEq

/-- The file-system facilities the code uses: `os.path.exists`,
`os.listdir` and `ET.parse` (the latter returns the parsed tree or the
text of the exception). -/
structure FileSystem where
  pathExists : String → Bool
  listdir : String → List String
  parse : String → Except String XMLFile

/-- The skip test of core.py line 78: `config.measInfoId` must be truthy
(set and nonempty) and differ from the attribute of the block. -/
def miSkip : Option String → Option String → Bool
  | none, _ => false
  | some c, miId => !(c == "") && !(miId == some c)

/-- The skip test of core.py line 94: `config.objLdn_list` must be
truthy (nonempty) and not contain the attribute; a missing attribute is
never a member of a list of strings. -/
def ldnSkip (l : List String) (ldn : Option String) : Bool :=
  !(l.isEmpty) && !(match ldn with
                    | some s => l.contains s
                    | none => false)

/-- The skip test of core.py line 99: `config.p_value` must be truthy
(set and nonzero) and the `p` attribute must differ from its `str`. -/
def pSkip : Option Int → Option String → Bool
  | none, _ => false
  | some v, p => !(v == 0) && !(p == some (toString v))

/-- Models `int(p)` at core.py line 111 where `p` is the optional
attribute string: a missing attribute raises `TypeError`, an
unparseable one `ValueError`.  Cause texts are abbreviated. -/
def pyIntOfAttr : Option String → Except String Int
  | none => Except.error "TypeError: int() argument must be a string, not NoneType"
  | some s =>
    match pyInt? s with
    | some n => Except.ok n
    | none => Except.error ("ValueError: invalid literal for int() with base 10: " ++ s)

/-- The try/except of core.py lines 102-105: `float(r.text)` with the
raw text retained on `ValueError` or `TypeError`. -/
def float_or_text : Option String → PyValue
  | none => PyValue.none
  | some s =>
    match pyFloat? s with
    | some q => PyValue.num q
    | none => PyValue.str s

/-- The dict comprehension of core.py lines 85-88 as an association
list in document order. -/
def measTypeTable (mi : MeasInfo) : List (Option String × Option String) :=
  mi.measTypes.map fun mt => (mt.p, mt.text)

/-- Python `dict` built from an association list, queried with `.get`:
later occurrences of a key overwrite earlier ones, so the lookup scans
the reversed list; a missing key yields `None`, as does a key stored
with value `None`. -/
def dictGet (tbl : List (Option String × Option String)) (key : Option String) : Option String :=
  match tbl.reverse.find? (fun kv => kv.1 == key) with
  | some kv => kv.2
  | none => none

/-- The body of the innermost loop, core.py lines 97-114: filter the
reading by `p_value`, then build the record; `Except.ok none` models a
filtered-out reading, an error aborts the whole file. -/
def processR (cfg : ParserConfig) (endTime : Option String) (miId : Option String)
    (mts : List (Option String × Option String)) (objLdn : Option String)
    (r : RElem) : Except String (Option PMRecord) :=
  if pSkip cfg.p_value r.p then Except.ok none
  else
    match pyIntOfAttr r.p with
    | Except.error e => Except.error e
    | Except.ok n =>
      Except.ok (some { endTime := endTime, measInfoId := miId, measObjLdn := objLdn,
                        p := n, value := float_or_text r.text,
                        measType := dictGet mts r.p })

/-- The loop of core.py line 97 over the `r` elements of one
`measValue`, collecting the appended records in document order. -/
def processRList (cfg : ParserConfig) (endTime : Option String) (miId : Option String)
    (mts : List (Option String × Option String)) (objLdn : Option String) :
    List RElem → Except String (List PMRecord)
  | [] => Except.ok []
  | r :: rs =>
    match processR cfg endTime miId mts objLdn r with
    | Except.error e => Except.error e
    | Except.ok none => processRList cfg endTime miId mts objLdn rs
    | Except.ok (some rec) =>
      match processRList cfg endTime miId mts objLdn rs with
      | Except.error e => Except.error e
      | Except.ok recs => Except.ok (rec :: recs)

/-- The body of the loop of core.py line 91 for one `measValue`:
filter by `objLdn_list`, then process its readings. -/
def processMeasValue (cfg : ParserConfig) (endTime : Option String) (miId : Option String)
    (mts : List (Option String × Option String)) (mv : MeasValue) :
    Except String (List PMRecord) :=
  if ldnSkip cfg.objLdn_list mv.measObjLdn then Except.ok []
  else processRList cfg endTime miId mts mv.measObjLdn mv.rs

/-- The loop of core.py line 91 over the `measValue` elements. -/
def processMVList (cfg : ParserConfig) (endTime : Option String) (miId : Option String)
    (mts : List (Option String × Option String)) :
    List MeasValue → Except String (List PMRecord)
  | [] => Except.ok []
  | mv :: mvs =>
    match processMeasValue cfg endTime miId mts mv with
    | Except.error e => Except.error e
    | Except.ok a =>
      match processMVList cfg endTime miId mts mvs with
      | Except.error e => Except.error e
      | Except.ok b => Except.ok (a ++ b)

/-- The body of the loop of core.py line 77 for one `measInfo` block:
filter by `measInfoId`; reading `endTime` off a missing `granPeriod`
raises `AttributeError` (core.py lines 81-82); then build the
counter-name table and process the value groups. -/
def processMeasInfo (cfg : ParserConfig) (mi : MeasInfo) : Except String (List PMRecord) :=
  if miSkip cfg.measInfoId mi.measInfoId then Except.ok []
  else
    match mi.granPeriod with
    | none => Except.error "AttributeError: NoneType object has no attribute get"
    | some gp => processMVList cfg gp.endTime mi.measInfoId (measTypeTable mi) mi.measValues

/-- The loop of core.py line 77 over the `measInfo` blocks. -/
def processMIList (cfg : ParserConfig) : List MeasInfo → Except String (List PMRecord)
  | [] => Except.ok []
  | mi :: mis =>
    match processMeasInfo cfg mi with
    | Except.error e => Except.error e
    | Except.ok a =>
      match processMIList cfg mis with
      | Except.error e => Except.error e
      | Except.ok b => Except.ok (a ++ b)

/-- The traversal inside the try block of `XMLProcessor.process_file`
(core.py lines 76-116), on an already parsed tree. -/
def extractRecords (cfg : ParserConfig) (doc : XMLFile) : Except String (List PMRecord) :=
  processMIList cfg doc.measInfos

/-- `XMLProcessor.process_file` (core.py lines 70-120): parse the file,
traverse it, and wrap any exception into a `PMError` carrying the file
path (line 120). -/
def process_file (fs : FileSystem) (file_path : String) (cfg : ParserConfig) :
    Except PMMsg (List PMRecord) :=
  match fs.parse file_path with
  | Except.error e => Except.error (PMMsg.failedToProcess file_path e)
  | Except.ok doc =>
    match extractRecords cfg doc with
    | Except.error e => Except.error (PMMsg.failedToProcess file_path e)
    | Except.ok rs => Except.ok rs

/-- The single-file branch of `PMParser._get_files_to_process`
(core.py lines 136-139). -/
def getFilesSingle (fs : FileSystem) (f : String) : Except PMMsg (List String) :=
  if fs.pathExists f then Except.ok [f] else Except.error (PMMsg.fileNotFound f)

/-- The directory branch of `PMParser._get_files_to_process` (core.py
lines 141-149): list the immediate entries, keep those whose name the
compiled pattern `match`es, and join them to the directory with the
path separator. -/
def getFilesDir (fs : FileSystem) (d : String) (pat : List RTok) : Except PMMsg (List String) :=
  if fs.pathExists d then
    Except.ok (((fs.listdir d).filter fun f => rmatch pat f.toList).map fun f => d ++ "/" ++ f)
  else Except.error (PMMsg.dirNotFound d)

/-- The fall-through of `_get_files_to_process` after a falsy
`single_file`: try the directory branch, else raise (core.py 141-151). -/
def getFilesRest (fs : FileSystem) (cfg : ParserConfig) : Except PMMsg (List String) :=
  match cfg.directory with
  | some d => if d == "" then Except.error PMMsg.noInputSpecified else getFilesDir fs d cfg.file_pattern
  | none => Except.error PMMsg.noInputSpecified

/-- `PMParser._get_files_to_process` (core.py lines 134-151): the
single-file branch is tried first, guarded by Python truthiness. -/
def get_files_to_process (fs : FileSystem) (cfg : ParserConfig) : Except PMMsg (List String) :=
  match cfg.single_file with
  | some f => if f == "" then getFilesRest fs cfg else getFilesSingle fs f
  | none => getFilesRest fs cfg

/-- The collect loop of `PMParser.process_files` (core.py lines
174-179) as the loop body prescribes, under the delivery the code
presupposes: each awaited future hands over the record list computed by
the body of `XMLProcessor.process_file` for its file; a failure is
logged and skipped, successes are extended onto the aggregate, and the
`as_completed` collection order is modelled as submission order.  The
dispatch as it actually behaves never delivers those lists — see
`futureResult` and `collectFutures` below. -/
def collectResults (fs : FileSystem) (cfg : ParserConfig) : List String → List PMRecord
  | [] => []
  | f :: rest =>
    match process_file fs f cfg with
    | Except.ok rs => rs ++ collectResults fs cfg rest
    | Except.error _ => collectResults fs cfg rest

/-- `PMParser.process_files` (core.py lines 153-184) under the per-file
delivery the loop body presupposes (see `collectResults`): resolve the
files, raise when the list is empty, collect every file, and return the
aggregate that is handed to the output handler. -/
def process_files (fs : FileSystem) (cfg : ParserConfig) : Except PMMsg (List PMRecord) :=
  match get_files_to_process fs cfg with
  | Except.error e => Except.error e
  | Except.ok files =>
    if files.isEmpty then Except.error PMMsg.noFilesFound
    else Except.ok (collectResults fs cfg files)

/-- The aggregates handed to `output_handler.write` (core.py lines
181-182) during one run: exactly one call on success, none when the run
raised before reaching the handoff. -/
def sink_calls (fs : FileSystem) (cfg : ParserConfig) : List (List PMRecord) :=
  match process_files fs cfg with
  | Except.ok rs => [rs]
  | Except.error _ => []

/-- What awaiting one dispatched future ACTUALLY delivers.
`XMLProcessor.process_file` is declared `async def` (core.py line 70)
but is submitted by `loop.run_in_executor` to a `ProcessPoolExecutor`
(core.py lines 162-172): the worker process calls it and obtains a
coroutine object without ever running its body, pickling that coroutine
back to the parent process fails, and so the awaited future raises a
`TypeError` for every file and every configuration — the record list
the body would compute is never delivered. -/
def futureResult (_fs : FileSystem) (_cfg : ParserConfig) (_f : String) :
    Except String (List PMRecord) :=
  Except.error "TypeError: cannot pickle coroutine object"

/-- The collect loop of core.py lines 174-179 applied to what the
futures actually deliver: every `await` raises, the `except` branch
logs and continues, and the aggregate stays empty. -/
def collectFutures (fs : FileSystem) (cfg : ParserConfig) : List String → List PMRecord
  | [] => []
  | f :: rest =>
    match futureResult fs cfg f with
    | Except.ok rs => rs ++ collectFutures fs cfg rest
    | Except.error _ => collectFutures fs cfg rest

/-- `PMParser.process_files` (core.py lines 153-184) with the dispatch
modelled as it actually behaves. -/
def process_files_run (fs : FileSystem) (cfg : ParserConfig) : Except PMMsg (List PMRecord) :=
  match get_files_to_process fs cfg with
  | Except.error e => Except.error e
  | Except.ok files =>
    if files.isEmpty then Except.error PMMsg.noFilesFound
    else Except.ok (collectFutures fs cfg files)

/-- The aggregates handed to `output_handler.write` during one actual
run: one call with the collected aggregate on success, none when the
run raised during resolution. -/
def sink_calls_run (fs : FileSystem) (cfg : ParserConfig) : List (List PMRecord) :=
  match process_files_run fs cfg with
  | Except.ok rs => [rs]
  | Except.error _ => []

/-- Keep decision for a block, the complement of `miSkip`. -/
def keepMI (cfg : ParserConfig) (mi : MeasInfo) : Bool :=
  !(miSkip cfg.measInfoId mi.measInfoId)

/-- Keep decision for a value group, the complement of `ldnSkip`. -/
def keepMV (cfg : ParserConfig) (mv : MeasValue) : Bool :=
  !(ldnSkip cfg.objLdn_list mv.measObjLdn)

/-- Keep decision for a reading, the complement of `pSkip`. -/
def keepR (cfg : ParserConfig) (r : RElem) : Bool :=
  !(pSkip cfg.p_value r.p)

/-- End time attached to the records of a block; only meaningful when
the block has a `granPeriod`. -/
def blockEndTime (mi : MeasInfo) : Option String :=
  match mi.granPeriod with
  | some gp => gp.endTime
  | none => none

/-- Parsed counter index of a reading; only meaningful when the
conversion succeeds. -/
def recP (r : RElem) : Int :=
  match pyIntOfAttr r.p with
  | Except.ok n => n
  | Except.error _ => 0

/-- The record a surviving reading contributes, written directly in
terms of its block, value group and reading. -/
def emitRecord (mi : MeasInfo) (mv : MeasValue) (r : RElem) : PMRecord :=
  { endTime := blockEndTime mi, measInfoId := mi.measInfoId, measObjLdn := mv.measObjLdn,
    p := recP r, value := float_or_text r.text,
    measType := dictGet (measTypeTable mi) r.p }

/-- Pure description of the extraction output: the records of the kept
readings of the kept value groups of the kept blocks, in document
order. -/
def specRecords (cfg : ParserConfig) (doc : XMLFile) : List PMRecord :=
  (doc.measInfos.filter (keepMI cfg)).flatMap fun mi =>
    (mi.measValues.filter (keepMV cfg)).flatMap fun mv =>
      (mv.rs.filter (keepR cfg)).map fun r => emitRecord mi mv r

/-- Whether an `Except` value is a success. -/
def exOk {α : Type} : Except String α → Bool
  | Except.ok _ => true
  | Except.error _ => false

/-- Whether a reading can be converted: `int(p)` succeeds. -/
def rOK (r : RElem) : Bool :=
  exOk (pyIntOfAttr r.p)

/-- Whether one value group raises no exception under a configuration:
either it is filtered out, or every kept reading converts. -/
def mvOK (cfg : ParserConfig) (mv : MeasValue) : Bool :=
  !(keepMV cfg mv) || mv.rs.all fun r => !(keepR cfg r) || rOK r

/-- Whether one block raises no exception under a configuration: either
it is filtered out, or it has a `granPeriod` and all its value groups
are safe. -/
def blockOK (cfg : ParserConfig) (mi : MeasInfo) : Bool :=
  !(keepMI cfg mi) || ((mi.granPeriod).isSome && mi.measValues.all (mvOK cfg))

/-- Whether a parsed document raises no exception under a
configuration. -/
def fileOK (cfg : ParserConfig) (doc : XMLFile) : Bool :=
  doc.measInfos.all (blockOK cfg)

/-- Filter-independent well-formedness: every block has a `granPeriod`
and every reading has a convertible `p` attribute. -/
def wellFormedDoc (doc : XMLFile) : Bool :=
  doc.measInfos.all fun mi =>
    (mi.granPeriod).isSome && mi.measValues.all fun mv => mv.rs.all rOK

/-- The configuration with only the block-level filter retained. -/
def onlyMiFilter (cfg : ParserConfig) : ParserConfig :=
  { cfg with objLdn_list := [], p_value := none }

/-- The configuration with only the value-group-level filter retained. -/
def onlyLdnFilter (cfg : ParserConfig) : ParserConfig :=
  { cfg with measInfoId := none, p_value := none }

/-- The configuration with only the reading-level filter retained. -/
def onlyPFilter (cfg : ParserConfig) : ParserConfig :=
  { cfg with measInfoId := none, objLdn_list := [] }

/-- Failure of a per-file result with a message naming the given path:
the result is an error and its message is the process-failure format
carrying that path. -/
def failsForPath (res : Except PMMsg (List PMRecord)) (p : String) : Prop :=
  match res with
  | Except.ok _ => False
  | Except.error (PMMsg.failedToProcess q _) => q = p
  | Except.error _ => False

lemma exOk_iff {α : Type} (x : Except String α) : exOk x = true ↔ ∃ a, x = Except.ok a := by
  cases x <;> simp [exOk]

lemma keepR_false_iff (cfg : ParserConfig) (r : RElem) :
    keepR cfg r = false ↔ pSkip cfg.p_value r.p = true := by
  cases h : pSkip cfg.p_value r.p <;> simp [keepR, h]

lemma processRList_ok (cfg : ParserConfig) (mi : MeasInfo) (mv : MeasValue) (gp : GranPeriod)
    (hgp : mi.granPeriod = some gp) :
    ∀ rs : List RElem, (∀ r ∈ rs, keepR cfg r = true → rOK r = true) →
    processRList cfg gp.endTime mi.measInfoId (measTypeTable mi) mv.measObjLdn rs =
      Except.ok ((rs.filter (keepR cfg)).map fun r => emitRecord mi mv r) := by
  intro rs
  induction rs with
  | nil => intro _; rfl
  | cons r rs ih =>
    intro h
    have htail : ∀ x ∈ rs, keepR cfg x = true → rOK x = true :=
      fun x hx => h x (List.mem_cons_of_mem r hx)
    by_cases hskip : pSkip cfg.p_value r.p = true
    · have hk : keepR cfg r = false := by simp [keepR, hskip]
      have h1 : processR cfg gp.endTime mi.measInfoId (measTypeTable mi) mv.measObjLdn r =
          Except.ok none := by simp [processR, hskip]
      simp [processRList, h1, List.filter_cons, hk, ih htail]
    · have hskip2 : pSkip cfg.p_value r.p = false := by
        cases hb : pSkip cfg.p_value r.p
        · rfl
        · exact absurd hb hskip
      have hk : keepR cfg r = true := by simp [keepR, hskip2]
      have hok : rOK r = true := h r (List.mem_cons_self r rs) hk
      obtain ⟨n, hn⟩ := (exOk_iff (pyIntOfAttr r.p)).mp hok
      have h1 : processR cfg gp.endTime mi.measInfoId (measTypeTable mi) mv.measObjLdn r =
          Except.ok (some (emitRecord mi mv r)) := by
        simp [processR, hskip2, hn, emitRecord, blockEndTime, hgp, recP]
      simp [processRList, h1, List.filter_cons, hk, ih htail]

lemma processRList_err (cfg : ParserConfig) (et : Option String) (miId : Option String)
    (mts : List (Option String × Option String)) (ldn : Option String) :
    ∀ rs : List RElem, (∃ r ∈ rs, keepR cfg r = true ∧ rOK r = false) →
    ∃ e, processRList cfg et miId mts ldn rs = Except.error e := by
  intro rs
  induction rs with
  | nil => intro h; obtain ⟨r, hr, _⟩ := h; exact absurd hr (List.not_mem_nil r)
  | cons r rs ih =>
    intro h
    cases hpr : processR cfg et miId mts ldn r with
    | error e => exact ⟨e, by simp [processRList, hpr]⟩
    | ok o =>
      have hwit : ∃ x ∈ rs, keepR cfg x = true ∧ rOK x = false := by
        obtain ⟨x, hx, hk, hb⟩ := h
        rcases List.mem_cons.mp hx with hx0 | hx1
        · exfalso
          subst hx0
          have hskip2 : pSkip cfg.p_value x.p = false := by
            cases hb2 : pSkip cfg.p_value x.p
            · rfl
            · rw [← keepR_false_iff] at hb2; rw [hk] at hb2; cases hb2
          cases hpi : pyIntOfAttr x.p with
          | ok n => rw [rOK, hpi] at hb; cases hb
          | error e => simp [processR, hskip2, hpi] at hpr
        · exact ⟨x, hx1, hk, hb⟩
      obtain ⟨e, he⟩ := ih hwit
      cases o with
      | none => exact ⟨e, by simp [processRList, hpr, he]⟩
      | some rec => exact ⟨e, by simp [processRList, hpr, he]⟩

lemma keepMV_false_iff (cfg : ParserConfig) (mv : MeasValue) :
    keepMV cfg mv = false ↔ ldnSkip cfg.objLdn_list mv.measObjLdn = true := by
  cases h : ldnSkip cfg.objLdn_list mv.measObjLdn <;> simp [keepMV, h]

lemma processMVList_ok (cfg : ParserConfig) (mi : MeasInfo) (gp : GranPeriod)
    (hgp : mi.granPeriod = some gp) :
    ∀ mvs : List MeasValue, (∀ mv ∈ mvs, mvOK cfg mv = true) →
    processMVList cfg gp.endTime mi.measInfoId (measTypeTable mi) mvs =
      Except.ok ((mvs.filter (keepMV cfg)).flatMap fun mv =>
        (mv.rs.filter (keepR cfg)).map fun r => emitRecord mi mv r) := by
  intro mvs
  induction mvs with
  | nil => intro _; rfl
  | cons mv mvs ih =>
    intro h
    have htail : ∀ x ∈ mvs, mvOK cfg x = true :=
      fun x hx => h x (List.mem_cons_of_mem mv hx)
    by_cases hskip : ldnSkip cfg.objLdn_list mv.measObjLdn = true
    · have hk : keepMV cfg mv = false := by simp [keepMV, hskip]
      have h1 : processMeasValue cfg gp.endTime mi.measInfoId (measTypeTable mi) mv =
          Except.ok [] := by simp [processMeasValue, hskip]
      simp [processMVList, h1, List.filter_cons, hk, ih htail]
    · have hskip2 : ldnSkip cfg.objLdn_list mv.measObjLdn = false := by
        cases hb : ldnSkip cfg.objLdn_list mv.measObjLdn
        · rfl
        · exact absurd hb hskip
      have hk : keepMV cfg mv = true := by simp [keepMV, hskip2]
      have hrall : ∀ r ∈ mv.rs, keepR cfg r = true → rOK r = true := by
        have hmv := h mv (List.mem_cons_self mv mvs)
        simp only [mvOK, hk, Bool.not_true, Bool.false_or, List.all_eq_true,
          Bool.or_eq_true] at hmv
        intro r hr hkr
        rcases hmv r hr with hno | hok
        · rw [hkr] at hno; cases hno
        · exact hok
      have h1 : processMeasValue cfg gp.endTime mi.measInfoId (measTypeTable mi) mv =
          Except.ok ((mv.rs.filter (keepR cfg)).map fun r => emitRecord mi mv r) := by
        rw [processMeasValue, if_neg (by simp [hskip2])]
        exact processRList_ok cfg mi mv gp hgp mv.rs hrall
      simp [processMVList, h1, List.filter_cons, hk, ih htail]

lemma processMVList_err (cfg : ParserConfig) (et : Option String) (miId : Option String)
    (mts : List (Option String × Option String)) :
    ∀ mvs : List MeasValue, (∃ mv ∈ mvs, mvOK cfg mv = false) →
    ∃ e, processMVList cfg et miId mts mvs = Except.error e := by
  intro mvs
  induction mvs with
  | nil => intro h; obtain ⟨mv, hmv, _⟩ := h; exact absurd hmv (List.not_mem_nil mv)
  | cons mv mvs ih =>
    intro h
    cases hpr : processMeasValue cfg et miId mts mv with
    | error e => exact ⟨e, by simp [processMVList, hpr]⟩
    | ok a =>
      have hwit : ∃ x ∈ mvs, mvOK cfg x = false := by
        obtain ⟨x, hx, hb⟩ := h
        rcases List.mem_cons.mp hx with hx0 | hx1
        · exfalso
          subst hx0
          rw [mvOK] at hb
          obtain ⟨hnk, hall⟩ := Bool.or_eq_false_iff.mp hb
          have hkmv : keepMV cfg x = true := by
            cases hkb : keepMV cfg x
            · rw [hkb] at hnk; cases hnk
            · rfl
          have hex : ∃ r ∈ x.rs, keepR cfg r = true ∧ rOK r = false := by
            have hnall : ¬ ∀ r ∈ x.rs, (!(keepR cfg r) || rOK r) = true := by
              rw [← List.all_eq_true]
              simp [hall]
            push_neg at hnall
            obtain ⟨r, hr, hrb⟩ := hnall
            refine ⟨r, hr, ?_⟩
            obtain ⟨h1, h2⟩ := Bool.or_eq_false_iff.mp (Bool.eq_false_iff.mpr hrb)
            constructor
            · cases hkb : keepR cfg r
              · rw [hkb] at h1; cases h1
              · rfl
            · exact h2
          have hskip2 : ldnSkip cfg.objLdn_list x.measObjLdn = false := by
            cases hsb : ldnSkip cfg.objLdn_list x.measObjLdn
            · rfl
            · rw [← keepMV_false_iff] at hsb; rw [hkmv] at hsb; cases hsb
          obtain ⟨e, he⟩ := processRList_err cfg et miId mts x.measObjLdn x.rs hex
          rw [processMeasValue, if_neg (by simp [hskip2]), he] at hpr
          cases hpr
        · exact ⟨x, hx1, hb⟩
      obtain ⟨e, he⟩ := ih hwit
      exact ⟨e, by simp [processMVList, hpr, he]⟩

lemma keepMI_false_iff (cfg : ParserConfig) (mi : MeasInfo) :
    keepMI cfg mi = false ↔ miSkip cfg.measInfoId mi.measInfoId = true := by
  cases h : miSkip cfg.measInfoId mi.measInfoId <;> simp [keepMI, h]

lemma processMeasInfo_ok (cfg : ParserConfig) (mi : MeasInfo) (hb : blockOK cfg mi = true) :
    processMeasInfo cfg mi =
      Except.ok (if keepMI cfg mi then
        (mi.measValues.filter (keepMV cfg)).flatMap fun mv =>
          (mv.rs.filter (keepR cfg)).map fun r => emitRecord mi mv r
      else []) := by
  by_cases hk : keepMI cfg mi = true
  · have hskip2 : miSkip cfg.measInfoId mi.measInfoId = false := by
      cases hsb : miSkip cfg.measInfoId mi.measInfoId
      · rfl
      · rw [← keepMI_false_iff] at hsb; rw [hk] at hsb; cases hsb
    rw [blockOK] at hb
    rcases Bool.or_eq_true_iff.mp hb with hnk | hrest
    · rw [Bool.not_eq_true'] at hnk; rw [hk] at hnk; cases hnk
    · obtain ⟨hsome, hall⟩ := Bool.and_eq_true_iff.mp hrest
      obtain ⟨gp, hgp⟩ := Option.isSome_iff_exists.mp hsome
      rw [processMeasInfo, if_neg (by simp [hskip2]), hgp]
      rw [List.all_eq_true] at hall
      show processMVList cfg gp.endTime mi.measInfoId (measTypeTable mi) mi.measValues = _
      rw [processMVList_ok cfg mi gp hgp mi.measValues hall]
      simp [hk]
  · have hk2 : keepMI cfg mi = false := Bool.eq_false_iff.mpr hk
    have hskip : miSkip cfg.measInfoId mi.measInfoId = true := (keepMI_false_iff cfg mi).mp hk2
    rw [processMeasInfo, if_pos hskip]
    simp [hk2]

lemma processMeasInfo_err (cfg : ParserConfig) (mi : MeasInfo) (hb : blockOK cfg mi = false) :
    ∃ e, processMeasInfo cfg mi = Except.error e := by
  rw [blockOK] at hb
  obtain ⟨hnk, hrest⟩ := Bool.or_eq_false_iff.mp hb
  have hk : keepMI cfg mi = true := by
    cases hkb : keepMI cfg mi
    · rw [hkb] at hnk; cases hnk
    · rfl
  have hskip2 : miSkip cfg.measInfoId mi.measInfoId = false := by
    cases hsb : miSkip cfg.measInfoId mi.measInfoId
    · rfl
    · rw [← keepMI_false_iff] at hsb; rw [hk] at hsb; cases hsb
  cases hgq : mi.granPeriod with
  | none =>
    exact ⟨"AttributeError: NoneType object has no attribute get",
      by rw [processMeasInfo, if_neg (by simp [hskip2]), hgq]⟩
  | some gp =>
    have hsome : (mi.granPeriod).isSome = true := by rw [hgq]; rfl
    rcases Bool.and_eq_false_iff.mp hrest with hnone | hbadmv
    · rw [hsome] at hnone; cases hnone
    · have hex : ∃ mv ∈ mi.measValues, mvOK cfg mv = false := by
        have hnall : ¬ ∀ mv ∈ mi.measValues, mvOK cfg mv = true := by
          rw [← List.all_eq_true]
          simp [hbadmv]
        push_neg at hnall
        obtain ⟨mv, hmv, hmb⟩ := hnall
        exact ⟨mv, hmv, Bool.eq_false_iff.mpr hmb⟩
      obtain ⟨e, he⟩ := processMVList_err cfg gp.endTime mi.measInfoId (measTypeTable mi)
        mi.measValues hex
      refine ⟨e, ?_⟩
      rw [processMeasInfo, if_neg (by simp [hskip2]), hgq]
      exact he

lemma processMIList_ok (cfg : ParserConfig) :
    ∀ mis : List MeasInfo, (∀ mi ∈ mis, blockOK cfg mi = true) →
    processMIList cfg mis =
      Except.ok ((mis.filter (keepMI cfg)).flatMap fun mi =>
        (mi.measValues.filter (keepMV cfg)).flatMap fun mv =>
          (mv.rs.filter (keepR cfg)).map fun r => emitRecord mi mv r) := by
  intro mis
  induction mis with
  | nil => intro _; rfl
  | cons mi mis ih =>
    intro h
    have htail : ∀ x ∈ mis, blockOK cfg x = true :=
      fun x hx => h x (List.mem_cons_of_mem mi hx)
    have hhead := processMeasInfo_ok cfg mi (h mi (List.mem_cons_self mi mis))
    by_cases hk : keepMI cfg mi = true
    · rw [if_pos hk] at hhead
      simp [processMIList, hhead, ih htail, List.filter_cons, hk]
    · have hk2 : keepMI cfg mi = false := Bool.eq_false_iff.mpr hk
      rw [hk2] at hhead
      simp only [if_neg (by simp : ¬ (false = true))] at hhead
      simp [processMIList, hhead, ih htail, List.filter_cons, hk2]

lemma processMIList_err (cfg : ParserConfig) :
    ∀ mis : List MeasInfo, (∃ mi ∈ mis, blockOK cfg mi = false) →
    ∃ e, processMIList cfg mis = Except.error e := by
  intro mis
  induction mis with
  | nil => intro h; obtain ⟨mi, hmi, _⟩ := h; exact absurd hmi (List.not_mem_nil mi)
  | cons mi mis ih =>
    intro h
    cases hpr : processMeasInfo cfg mi with
    | error e => exact ⟨e, by simp [processMIList, hpr]⟩
    | ok a =>
      have hwit : ∃ x ∈ mis, blockOK cfg x = false := by
        obtain ⟨x, hx, hb⟩ := h
        rcases List.mem_cons.mp hx with hx0 | hx1
        · exfalso
          subst hx0
          obtain ⟨e, he⟩ := processMeasInfo_err cfg x hb
          rw [he] at hpr
          cases hpr
        · exact ⟨x, hx1, hb⟩
      obtain ⟨e, he⟩ := ih hwit
      exact ⟨e, by simp [processMIList, hpr, he]⟩

lemma extractRecords_ok (cfg : ParserConfig) (doc : XMLFile) (h : fileOK cfg doc = true) :
    extractRecords cfg doc = Except.ok (specRecords cfg doc) := by
  rw [fileOK, List.all_eq_true] at h
  rw [extractRecords, specRecords]
  exact processMIList_ok cfg doc.measInfos h

lemma extractRecords_err (cfg : ParserConfig) (doc : XMLFile) (h : fileOK cfg doc = false) :
    ∃ e, extractRecords cfg doc = Except.error e := by
  have hex : ∃ mi ∈ doc.measInfos, blockOK cfg mi = false := by
    have hnall : ¬ ∀ mi ∈ doc.measInfos, blockOK cfg mi = true := by
      rw [← List.all_eq_true]
      simp [fileOK] at h
      simp [h]
    push_neg at hnall
    obtain ⟨mi, hmi, hmb⟩ := hnall
    exact ⟨mi, hmi, Bool.eq_false_iff.mpr hmb⟩
  exact processMIList_err cfg doc.measInfos hex

lemma mem_specRecords (cfg : ParserConfig) (doc : XMLFile) (rec : PMRecord) :
    rec ∈ specRecords cfg doc ↔
      ∃ mi ∈ doc.measInfos, keepMI cfg mi = true ∧
        ∃ mv ∈ mi.measValues, keepMV cfg mv = true ∧
          ∃ r ∈ mv.rs, keepR cfg r = true ∧ rec = emitRecord mi mv r := by
  simp only [specRecords, List.mem_flatMap, List.mem_filter, List.mem_map]
  constructor
  · rintro ⟨mi, ⟨hmi, hkmi⟩, mv, ⟨hmv, hkmv⟩, r, ⟨hr, hkr⟩, hrec⟩
    exact ⟨mi, hmi, hkmi, mv, hmv, hkmv, r, hr, hkr, hrec.symm⟩
  · rintro ⟨mi, hmi, hkmi, mv, hmv, hkmv, r, hr, hkr, hrec⟩
    exact ⟨mi, ⟨hmi, hkmi⟩, mv, ⟨hmv, hkmv⟩, r, ⟨hr, hkr⟩, hrec.symm⟩

lemma fileOK_of_wellFormed (cfg : ParserConfig) (doc : XMLFile)
    (h : wellFormedDoc doc = true) : fileOK cfg doc = true := by
  rw [wellFormedDoc, List.all_eq_true] at h
  rw [fileOK, List.all_eq_true]
  intro mi hmi
  obtain ⟨hgp, hmv⟩ := Bool.and_eq_true_iff.mp (h mi hmi)
  rw [blockOK]
  apply Bool.or_eq_true_iff.mpr
  right
  apply Bool.and_eq_true_iff.mpr
  refine ⟨hgp, ?_⟩
  rw [List.all_eq_true] at hmv ⊢
  intro mv hm
  rw [mvOK]
  apply Bool.or_eq_true_iff.mpr
  right
  rw [List.all_eq_true]
  intro r hr
  apply Bool.or_eq_true_iff.mpr
  right
  have hall := hmv mv hm
  rw [List.all_eq_true] at hall
  exact hall r hr

lemma keepMI_onlyMi (cfg : ParserConfig) (mi : MeasInfo) :
    keepMI (onlyMiFilter cfg) mi = keepMI cfg mi := rfl

lemma keepMV_onlyMi (cfg : ParserConfig) (mv : MeasValue) :
    keepMV (onlyMiFilter cfg) mv = true := rfl

lemma keepR_onlyMi (cfg : ParserConfig) (r : RElem) :
    keepR (onlyMiFilter cfg) r = true := rfl

lemma keepMI_onlyLdn (cfg : ParserConfig) (mi : MeasInfo) :
    keepMI (onlyLdnFilter cfg) mi = true := rfl

lemma keepMV_onlyLdn (cfg : ParserConfig) (mv : MeasValue) :
    keepMV (onlyLdnFilter cfg) mv = keepMV cfg mv := rfl

lemma keepR_onlyLdn (cfg : ParserConfig) (r : RElem) :
    keepR (onlyLdnFilter cfg) r = true := rfl

lemma keepMI_onlyP (cfg : ParserConfig) (mi : MeasInfo) :
    keepMI (onlyPFilter cfg) mi = true := rfl

lemma keepMV_onlyP (cfg : ParserConfig) (mv : MeasValue) :
    keepMV (onlyPFilter cfg) mv = true := rfl

lemma keepR_onlyP (cfg : ParserConfig) (r : RElem) :
    keepR (onlyPFilter cfg) r = keepR cfg r := rfl

lemma keepMI_congr (cfg : ParserConfig) (mi mi2 : MeasInfo)
    (h : mi.measInfoId = mi2.measInfoId) : keepMI cfg mi = keepMI cfg mi2 := by
  rw [keepMI, keepMI, h]

lemma keepMV_congr (cfg : ParserConfig) (mv mv2 : MeasValue)
    (h : mv.measObjLdn = mv2.measObjLdn) : keepMV cfg mv = keepMV cfg mv2 := by
  rw [keepMV, keepMV, h]

lemma dictGet_last_wins (tbl1 tbl2 : List (Option String × Option String))
    (k : Option String) (v : Option String)
    (h : ∀ kv ∈ tbl2, (kv.1 == k) = false) :
    dictGet (tbl1 ++ (k, v) :: tbl2) k = v := by
  rw [dictGet]
  have hrev : (tbl1 ++ (k, v) :: tbl2).reverse =
      tbl2.reverse ++ (k, v) :: tbl1.reverse := by
    simp [List.reverse_append]
  rw [hrev, List.find?_append]
  have hnone : tbl2.reverse.find? (fun kv => kv.1 == k) = none := by
    rw [List.find?_eq_none]
    intro kv hkv
    rw [List.mem_reverse] at hkv
    simp [h kv hkv]
  rw [hnone]
  rw [List.find?_cons_of_pos _ (by simp)]
  rfl

lemma dictGet_not_found (tbl : List (Option String × Option String)) (k : Option String)
    (h : ∀ kv ∈ tbl, (kv.1 == k) = false) :
    dictGet tbl k = none := by
  rw [dictGet]
  have hnone : tbl.reverse.find? (fun kv => kv.1 == k) = none := by
    rw [List.find?_eq_none]
    intro kv hkv
    rw [List.mem_reverse] at hkv
    simp [h kv hkv]
  rw [hnone]

/-- Does a character list start with the four characters dot, x, m, l? -/
def startsXml : List Char → Bool
  | c1 :: c2 :: c3 :: c4 :: _ => c1 == '.' && (c2 == 'x' && (c3 == 'm' && c4 == 'l'))
  | _ => false

/-- Does the list contain the dot-x-m-l sequence reachable without
crossing a newline (the dotted star of the default pattern cannot
consume a newline)? -/
def defaultTail : List Char → Bool
  | [] => false
  | c :: cs => startsXml (c :: cs) || (!(c == '\n') && defaultTail cs)

/-- Full description of which names the default pattern accepts under
the anchored-at-start-only semantics of `re.match`: a leading letter A,
then the dot-x-m-l sequence somewhere later, trailing characters
allowed. -/
def defaultNameChars : List Char → Bool
  | [] => false
  | c :: cs => c == 'A' && defaultTail cs

/-- The tokens of the default pattern after the leading literal. -/
def xmlToks : List RTok :=
  [RTok.atom (RAtom.lit '.'), RTok.atom (RAtom.lit 'x'),
   RTok.atom (RAtom.lit 'm'), RTok.atom (RAtom.lit 'l')]

lemma rmatch_xmlToks (s : List Char) : rmatch xmlToks s = startsXml s := by
  rcases s with _ | ⟨c1, _ | ⟨c2, _ | ⟨c3, _ | ⟨c4, rest⟩⟩⟩⟩ <;>
    simp [xmlToks, rmatch, atomMatches, startsXml, Bool.and_assoc]

lemma any_const_and (l : List Nat) (a : Bool) (g : Nat → Bool) :
    (l.any fun x => a && g x) = (a && l.any g) := by
  induction l with
  | nil => simp
  | cons x xs ih => simp [List.any_cons, ih, Bool.and_or_distrib_left]

lemma rmatch_star_dot (cs : List Char) :
    rmatch (RTok.star RAtom.dot :: xmlToks) cs = defaultTail cs := by
  induction cs with
  | nil => decide
  | cons c cs ih =>
    rw [rmatch]
    simp only [rmatch_xmlToks]
    rw [List.length_cons, List.range_succ_eq_map, List.any_cons, List.any_map]
    have h0 : (((c :: cs).take 0).all (atomMatches RAtom.dot) &&
        startsXml ((c :: cs).drop 0)) = startsXml (c :: cs) := by
      simp
    rw [h0]
    have h1 : ((List.range (cs.length + 1)).any
        ((fun n => ((c :: cs).take n).all (atomMatches RAtom.dot) &&
          startsXml ((c :: cs).drop n)) ∘ Nat.succ)) =
        (!(c == '\n') && (List.range (cs.length + 1)).any
          fun n => (cs.take n).all (atomMatches RAtom.dot) && startsXml (cs.drop n)) := by
      rw [← any_const_and]
      congr 1
      funext n
      simp [Function.comp, List.take_succ_cons, List.drop_succ_cons, atomMatches,
        Bool.and_assoc]
    rw [h1]
    have h2 : ((List.range (cs.length + 1)).any
        fun n => (cs.take n).all (atomMatches RAtom.dot) && startsXml (cs.drop n)) =
        defaultTail cs := by
      rw [← ih, rmatch]
      simp only [rmatch_xmlToks]
    rw [h2]
    rfl

lemma rmatch_default (cs : List Char) :
    rmatch DEFAULT_FILE_PATTERN cs = defaultNameChars cs := by
  cases cs with
  | nil => rfl
  | cons c cs =>
    have hd : DEFAULT_FILE_PATTERN = RTok.atom (RAtom.lit 'A') :: RTok.star RAtom.dot ::
        xmlToks := rfl
    rw [hd, rmatch, rmatch_star_dot]
    rfl

lemma collectFutures_nil (fs : FileSystem) (cfg : ParserConfig) :
    ∀ files : List String, collectFutures fs cfg files = [] := by
  intro files
  induction files with
  | nil => rfl
  | cons f rest ih =>
    rw [collectFutures]
    exact ih

lemma process_files_run_delivers_nothing (fs : FileSystem) (cfg : ParserConfig)
    (files : List String) (hfiles : get_files_to_process fs cfg = Except.ok files)
    (hne : ¬ (files = [])) :
    process_files_run fs cfg = Except.ok [] ∧ sink_calls_run fs cfg = [[]] := by
  have hemp : files.isEmpty = false := by
    cases files with
    | nil => exact absurd rfl hne
    | cons a l => rfl
  have h1 : process_files_run fs cfg = Except.ok [] := by
    rw [process_files_run, hfiles]
    show (if files.isEmpty = true then Except.error PMMsg.noFilesFound
          else Except.ok (collectFutures fs cfg files)) = _
    rw [hemp, if_neg (by simp), collectFutures_nil]
  exact ⟨h1, by rw [sink_calls_run, h1]⟩

lemma process_files_of_resolved (fs : FileSystem) (cfg : ParserConfig)
    (files : List String) (hfiles : get_files_to_process fs cfg = Except.ok files)
    (hne : ¬ (files = [])) :
    process_files fs cfg = Except.ok (collectResults fs cfg files) := by
  rw [process_files, hfiles]
  have hemp : files.isEmpty = false := by
    cases files with
    | nil => exact absurd rfl hne
    | cons a l => rfl
  show (if files.isEmpty = true then Except.error PMMsg.noFilesFound
        else Except.ok (collectResults fs cfg files)) = _
  rw [hemp]
  simp

lemma process_file_fails (fs : FileSystem) (path : String) (cfg : ParserConfig)
    (doc : XMLFile) (hparse : fs.parse path = Except.ok doc)
    (hbad : fileOK cfg doc = false) : failsForPath (process_file fs path cfg) path := by
  obtain ⟨e, he⟩ := extractRecords_err cfg doc hbad
  have hpf : process_file fs path cfg = Except.error (PMMsg.failedToProcess path e) := by
    rw [process_file, hparse]
    show (match extractRecords cfg doc with
          | Except.error e => Except.error (PMMsg.failedToProcess path e)
          | Except.ok rs => Except.ok rs) = _
    rw [he]
  rw [hpf]
  exact rfl

/-- Fixture for C1: one block that survives the block filter, one value
group, one reading whose `p` attribute is the string 07 — the integer
seven written with a leading zero. -/
def c1doc : XMLFile :=
  { measInfos :=
      [ { measInfoId := some "M",
          granPeriod := some ({ endTime := some "T" }),
          measTypes := [],
          measValues :=
            [ { measObjLdn := some "L",
                rs := [ { p := some "07", text := some "x" } ] } ] } ] }

/-- Fixture for C1: a configuration whose counter-index filter is 7. -/
def c1cfg : ParserConfig :=
  { p_value := some 7 }

/-- C1 counterexample: with `pValue = 7` the single reading has `p`
attribute string 07, whose parsed integer equals 7, yet the extraction
emits no record for it — the code compares `p` against `str(pValue)` as
strings, so a leading zero causes a skip, contradicting the claim that
readings whose integer value equals `pValue` are never skipped.
Removing the filter shows the reading is otherwise emitted. -/
theorem c1_counterexample :
    pyInt? "07" = some 7 ∧ c1cfg.p_value = some 7 ∧
    extractRecords c1cfg c1doc = Except.ok [] ∧
    extractRecords { c1cfg with p_value := none } c1doc =
      Except.ok [ { endTime := some "T", measInfoId := some "M", measObjLdn := some "L",
                    p := 7, value := PyValue.str "x", measType := none } ] := by
  refine ⟨by decide, by decide, by decide, by decide⟩

/-- C1 (amended): when `filterConfig.pValue` is set to `v`, a reading
is kept by the counter-index filter exactly when `v = 0` (Python
truthiness disables the filter entirely) or the `p` attribute STRING
equals the decimal string of `v`; in particular a reading whose parsed
integer equals `v` but whose string form differs (e.g. a leading zero)
is skipped.  On a file that raises no structural error the extraction
output is exactly the kept readings' records. -/
theorem c1_pvalue_filter_amended (cfg : ParserConfig) (doc : XMLFile) (v : Int)
    (hv : cfg.p_value = some v) (hok : fileOK cfg doc = true) :
    extractRecords cfg doc = Except.ok (specRecords cfg doc)
    ∧ (∀ r : RElem, keepR cfg r = ((v == 0) || (r.p == some (toString v))))
    ∧ (∀ s : String, pyInt? s = some v → ¬ (v = 0) → ¬ (s = toString v) →
        keepR cfg { p := some s, text := some "w" } = false) := by
  refine ⟨extractRecords_ok cfg doc hok, ?_, ?_⟩
  · intro r
    rw [keepR, hv, pSkip]
    rw [Bool.not_and, Bool.not_not, Bool.not_not]
  · intro s hpi hv0 hs
    rw [keepR, hv, pSkip]
    have h1 : (v == 0) = false := by
      cases hb : (v == 0)
      · rfl
      · exact absurd (by exact of_decide_eq_true (by simpa using hb)) hv0
    have h2 : ((some s : Option String) == some (toString v)) = false := by
      cases hb : ((some s : Option String) == some (toString v))
      · rfl
      · exfalso
        apply hs
        have := of_decide_eq_true (by simpa using hb)
        exact this
    rw [h1, h2]
    rfl

/-- Closed instance of the amended C1 theorem at the fixture input. -/
theorem c1_pvalue_filter_amended_witness :
    (c1cfg.p_value = some 7 ∧ fileOK c1cfg c1doc = true) ∧
    (extractRecords c1cfg c1doc = Except.ok (specRecords c1cfg c1doc)
     ∧ (∀ r : RElem, keepR c1cfg r = (((7 : Int) == 0) || (r.p == some (toString (7 : Int)))))
     ∧ (∀ s : String, pyInt? s = some 7 → ¬ ((7 : Int) = 0) → ¬ (s = toString (7 : Int)) →
         keepR c1cfg { p := some s, text := some "w" } = false)) :=
  ⟨⟨by decide, by decide⟩, c1_pvalue_filter_amended c1cfg c1doc 7 (by decide) (by decide)⟩

/-- Fixture for C2: a directory d whose sole entry carries trailing
characters after the xml suffix. -/
def c2fs : FileSystem :=
  { pathExists := fun p => p == "d",
    listdir := fun p => if p == "d" then ["Afoo.xml.bak", "A1.xml", "B2.xml", "notes.txt"] else [],
    parse := fun _ => Except.error "not parsed in this fixture" }

/-- Fixture for C2: directory mode with the default pattern. -/
def c2cfg : ParserConfig :=
  { directory := some "d" }

/-- C2 counterexample: under the default pattern the entry named
Afoo.xml.bak — whose name does not end in the xml suffix, only contains
it — is KEPT by file resolution, because the code uses the
anchored-at-start-only `re.match`, not a full-string match; the claim
says such entries are excluded. -/
theorem c2_counterexample :
    "Afoo.xml.bak".toList.reverse.take 4 ≠ [ 'l', 'm', 'x', '.' ] ∧
    get_files_to_process c2fs c2cfg = Except.ok ["d/Afoo.xml.bak", "d/A1.xml"] := by
  refine ⟨by decide, by decide⟩

/-- C2 (amended): in directory mode with the default pattern, file
resolution keeps exactly those immediate entries whose name has a
PREFIX matching the pattern — the name must start with the letter A and
contain the dot-x-m-l sequence later (not across a newline for the
dotted star); trailing characters after that sequence are allowed, so
names such as Afoo.xml.bak are included. -/
theorem c2_directory_pattern_amended (fs : FileSystem) (cfg : ParserConfig) (d : String)
    (h1 : strTruthy cfg.single_file = false) (h2 : cfg.directory = some d)
    (hd : ¬ (d = "")) (hex : fs.pathExists d = true)
    (hp : cfg.file_pattern = DEFAULT_FILE_PATTERN) :
    get_files_to_process fs cfg =
      Except.ok (((fs.listdir d).filter fun f => defaultNameChars f.toList).map
        fun f => d ++ "/" ++ f) := by
  have hrest : get_files_to_process fs cfg = getFilesRest fs cfg := by
    rw [get_files_to_process]
    cases hsf : cfg.single_file with
    | none => rfl
    | some f =>
      rw [hsf, strTruthy] at h1
      have hf : (f == "") = true := by
        cases hb : (f == "")
        · rw [hb] at h1; cases h1
        · rfl
      simp [hf]
  have hde : (d == "") = false := by
    cases hb : (d == "")
    · rfl
    · exact absurd (of_decide_eq_true (by simpa using hb)) hd
  rw [hrest, getFilesRest, h2]
  show (if (d == "") = true then Except.error PMMsg.noInputSpecified
        else getFilesDir fs d cfg.file_pattern) = _
  rw [hde, if_neg (by simp)]
  rw [getFilesDir, hex, if_pos rfl]
  simp only [hp, rmatch_default]

/-- Closed instance of the amended C2 theorem at the fixture input. -/
theorem c2_directory_pattern_amended_witness :
    (strTruthy c2cfg.single_file = false ∧ c2cfg.directory = some "d" ∧ ¬ ("d" = "") ∧
     c2fs.pathExists "d" = true ∧ c2cfg.file_pattern = DEFAULT_FILE_PATTERN) ∧
    get_files_to_process c2fs c2cfg =
      Except.ok (((c2fs.listdir "d").filter fun f => defaultNameChars f.toList).map
        fun f => "d" ++ "/" ++ f) :=
  ⟨⟨by decide, by decide, by decide, by decide, by decide⟩,
   c2_directory_pattern_amended c2fs c2cfg "d" (by decide) (by decide) (by decide)
     (by decide) (by decide)⟩

/-- Fixture for C3: both an existing single file and an existing
directory are available; the file parses to an empty document. -/
def c3fs : FileSystem :=
  { pathExists := fun p => p == "a.xml" || p == "dir",
    listdir := fun p => if p == "dir" then ["A1.xml"] else [],
    parse := fun p => if p == "a.xml" then Except.ok { measInfos := [] }
                      else Except.error "directory entries are never parsed here" }

/-- Fixture for C3: a configuration supplying BOTH a single file and a
directory. -/
def c3cfg : ParserConfig :=
  { single_file := some "a.xml", directory := some "dir" }

/-- C3 counterexample: with both a single file and a directory
supplied, the run does not fail — it resolves to the single file,
completes successfully, and calls the sink once; the claim says such a
configuration fails immediately with a `ConfigError` and the sink is
never called. -/
theorem c3_counterexample :
    strTruthy c3cfg.single_file = true ∧ strTruthy c3cfg.directory = true ∧
    process_files c3fs c3cfg = Except.ok [] ∧
    sink_calls c3fs c3cfg = [[]] := by
  refine ⟨by decide, by decide, by decide, by decide⟩

/-- C3 (amended): when a truthy single file is supplied it takes
precedence unconditionally — the directory setting is ignored, file
resolution is exactly the single-file branch, and when the file exists
the run processes just that file; the no-input `PMError` occurs only
when NEITHER a truthy single file nor a truthy directory is supplied
(and then the sink is never called). -/
theorem c3_single_file_precedence_amended (fs : FileSystem) (cfg : ParserConfig)
    (f : String) (hf : cfg.single_file = some f) (hne : ¬ (f = "")) :
    get_files_to_process fs cfg = getFilesSingle fs f
    ∧ (fs.pathExists f = true →
        process_files fs cfg = Except.ok (collectResults fs cfg [f]))
    ∧ (∀ cfg2 : ParserConfig, strTruthy cfg2.single_file = false →
        strTruthy cfg2.directory = false →
        process_files fs cfg2 = Except.error PMMsg.noInputSpecified
        ∧ sink_calls fs cfg2 = []) := by
  have hfe : (f == "") = false := by
    cases hb : (f == "")
    · rfl
    · exact absurd (of_decide_eq_true (by simpa using hb)) hne
  have hres : get_files_to_process fs cfg = getFilesSingle fs f := by
    rw [get_files_to_process, hf]
    show (if (f == "") = true then getFilesRest fs cfg else getFilesSingle fs f) = _
    rw [hfe, if_neg (by simp)]
  refine ⟨hres, ?_, ?_⟩
  · intro hex
    have hone : get_files_to_process fs cfg = Except.ok [f] := by
      rw [hres, getFilesSingle, hex, if_pos rfl]
    exact process_files_of_resolved fs cfg [f] hone (by simp)
  · intro cfg2 h2s h2d
    have hrest : get_files_to_process fs cfg2 = getFilesRest fs cfg2 := by
      rw [get_files_to_process]
      cases hsf : cfg2.single_file with
      | none => rfl
      | some g =>
        rw [hsf, strTruthy] at h2s
        have hg : (g == "") = true := by
          cases hb : (g == "")
          · rw [hb] at h2s; cases h2s
          · rfl
        simp [hg]
    have herr : get_files_to_process fs cfg2 = Except.error PMMsg.noInputSpecified := by
      rw [hrest, getFilesRest]
      cases hdd : cfg2.directory with
      | none => rfl
      | some e =>
        rw [hdd, strTruthy] at h2d
        have hd2 : (e == "") = true := by
          cases hb : (e == "")
          · rw [hb] at h2d; cases h2d
          · rfl
        simp [hd2]
    constructor
    · rw [process_files, herr]
    · rw [sink_calls, process_files, herr]

/-- Closed instance of the amended C3 theorem at the fixture input. -/
theorem c3_single_file_precedence_amended_witness :
    (c3cfg.single_file = some "a.xml" ∧ ¬ ("a.xml" = "")) ∧
    (get_files_to_process c3fs c3cfg = getFilesSingle c3fs "a.xml"
     ∧ (c3fs.pathExists "a.xml" = true →
         process_files c3fs c3cfg = Except.ok (collectResults c3fs c3cfg ["a.xml"]))
     ∧ (∀ cfg2 : ParserConfig, strTruthy cfg2.single_file = false →
         strTruthy cfg2.directory = false →
         process_files c3fs cfg2 = Except.error PMMsg.noInputSpecified
         ∧ sink_calls c3fs cfg2 = [])) :=
  ⟨⟨by decide, by decide⟩,
   c3_single_file_precedence_amended c3fs c3cfg "a.xml" (by decide) (by decide)⟩

/-- C4: a file containing a block that passes the `measInfoId` filter
but lacks a `granPeriod` element fails as a whole: `process_file`
returns a single error whose message carries the file path, and no
record — not even one from an earlier well-formed block of the same
file — is returned (the success channel is empty, all-or-nothing per
file). -/
theorem c4_missing_granperiod_fails_file (fs : FileSystem) (path : String)
    (cfg : ParserConfig) (doc : XMLFile) (hparse : fs.parse path = Except.ok doc)
    (hbad : ∃ mi ∈ doc.measInfos, keepMI cfg mi = true ∧ mi.granPeriod = none) :
    failsForPath (process_file fs path cfg) path := by
  obtain ⟨mi, hmi, hk, hgp⟩ := hbad
  have hblock : blockOK cfg mi = false := by
    rw [blockOK, hk, hgp]
    rfl
  have hfile : fileOK cfg doc = false := by
    cases hb : fileOK cfg doc
    · rfl
    · exfalso
      rw [fileOK, List.all_eq_true] at hb
      rw [hb mi hmi] at hblock
      cases hblock
  exact process_file_fails fs path cfg doc hparse hfile

/-- Fixture for C4: the first block is well formed and yields a record,
the second block lacks a `granPeriod`. -/
def c4doc : XMLFile :=
  { measInfos :=
      [ { measInfoId := some "A",
          granPeriod := some ({ endTime := some "TA" }),
          measTypes := [],
          measValues :=
            [ { measObjLdn := some "L1",
                rs := [ { p := some "1", text := some "v" } ] } ] },
        { measInfoId := some "B",
          granPeriod := none,
          measTypes := [],
          measValues :=
            [ { measObjLdn := some "L2",
                rs := [ { p := some "2", text := some "w" } ] } ] } ] }

/-- Fixture for C4: a file system serving the two-block document. -/
def c4fs : FileSystem :=
  { pathExists := fun p => p == "f.xml",
    listdir := fun _ => [],
    parse := fun p => if p == "f.xml" then Except.ok c4doc
                      else Except.error "no such file" }

/-- Closed instance of the C4 theorem at the fixture input. -/
theorem c4_missing_granperiod_fails_file_witness :
    (c4fs.parse "f.xml" = Except.ok c4doc ∧
     (∃ mi ∈ c4doc.measInfos, keepMI ({} : ParserConfig) mi = true ∧ mi.granPeriod = none)) ∧
    failsForPath (process_file c4fs "f.xml" ({} : ParserConfig)) "f.xml" :=
  ⟨⟨by decide, by decide⟩,
   c4_missing_granperiod_fails_file c4fs "f.xml" {} c4doc (by decide) (by decide)⟩

/-- C10: a reading that survives all three filters but whose `p`
attribute is absent or not parseable by `int()` makes the WHOLE file
fail with a path-carrying error — the never-raise guarantee of value
parsing does not extend to the counter-index conversion. -/
theorem c10_bad_counter_index_fails_file (fs : FileSystem) (path : String)
    (cfg : ParserConfig) (doc : XMLFile) (hparse : fs.parse path = Except.ok doc)
    (hbad : ∃ mi ∈ doc.measInfos, keepMI cfg mi = true ∧
        ∃ mv ∈ mi.measValues, keepMV cfg mv = true ∧
          ∃ r ∈ mv.rs, keepR cfg r = true ∧ rOK r = false) :
    failsForPath (process_file fs path cfg) path := by
  obtain ⟨mi, hmi, hkmi, mv, hmv, hkmv, r, hr, hkr, hbadr⟩ := hbad
  have hmvOK : mvOK cfg mv = false := by
    cases hb : mvOK cfg mv
    · rfl
    · exfalso
      rw [mvOK] at hb
      rcases Bool.or_eq_true_iff.mp hb with hno | hall
      · rw [Bool.not_eq_true'] at hno; rw [hkmv] at hno; cases hno
      · rw [List.all_eq_true] at hall
        rcases Bool.or_eq_true_iff.mp (hall r hr) with hno | hok
        · rw [Bool.not_eq_true'] at hno; rw [hkr] at hno; cases hno
        · rw [hok] at hbadr; cases hbadr
  have hblock : blockOK cfg mi = false := by
    cases hb : blockOK cfg mi
    · rfl
    · exfalso
      rw [blockOK] at hb
      rcases Bool.or_eq_true_iff.mp hb with hno | hrest
      · rw [Bool.not_eq_true'] at hno; rw [hkmi] at hno; cases hno
      · obtain ⟨_, hall⟩ := Bool.and_eq_true_iff.mp hrest
        rw [List.all_eq_true] at hall
        rw [hall mv hmv] at hmvOK
        cases hmvOK
  have hfile : fileOK cfg doc = false := by
    cases hb : fileOK cfg doc
    · rfl
    · exfalso
      rw [fileOK, List.all_eq_true] at hb
      rw [hb mi hmi] at hblock
      cases hblock
  exact process_file_fails fs path cfg doc hparse hfile

/-- Fixture for C10: a single reading whose `p` attribute is not a
decimal integer string, in an otherwise well-formed block. -/
def c10doc : XMLFile :=
  { measInfos :=
      [ { measInfoId := some "M",
          granPeriod := some ({ endTime := some "T" }),
          measTypes := [],
          measValues :=
            [ { measObjLdn := some "L",
                rs := [ { p := some "x7", text := some "3" } ] } ] } ] }

/-- Fixture for C10: a file system serving the bad-index document. -/
def c10fs : FileSystem :=
  { pathExists := fun p => p == "g.xml",
    listdir := fun _ => [],
    parse := fun p => if p == "g.xml" then Except.ok c10doc
                      else Except.error "no such file" }

/-- Closed instance of the C10 theorem at the fixture input. -/
theorem c10_bad_counter_index_fails_file_witness :
    (c10fs.parse "g.xml" = Except.ok c10doc ∧
     (∃ mi ∈ c10doc.measInfos, keepMI ({} : ParserConfig) mi = true ∧
        ∃ mv ∈ mi.measValues, keepMV ({} : ParserConfig) mv = true ∧
          ∃ r ∈ mv.rs, keepR ({} : ParserConfig) r = true ∧ rOK r = false)) ∧
    failsForPath (process_file c10fs "g.xml" ({} : ParserConfig)) "g.xml" :=
  ⟨⟨by decide, by decide⟩,
   c10_bad_counter_index_fails_file c10fs "g.xml" {} c10doc (by decide) (by decide)⟩

/-- Fixture for C5: a well-formed document with one reading. -/
def c5doc : XMLFile :=
  { measInfos :=
      [ { measInfoId := some "M",
          granPeriod := some ({ endTime := some "T" }),
          measTypes := [],
          measValues :=
            [ { measObjLdn := some "L",
                rs := [ { p := some "9", text := some "ok" } ] } ] } ] }

/-- Fixture for C5: a directory with two matching entries; the first
file fails to parse, the second parses to `c5doc`. -/
def c5fs : FileSystem :=
  { pathExists := fun p => p == "d",
    listdir := fun p => if p == "d" then ["A1.xml", "A2.xml"] else [],
    parse := fun p => if p == "d/A2.xml" then Except.ok c5doc
                      else Except.error "syntax error at line 1" }

/-- Fixture for C5: directory mode over the two-file directory. -/
def c5cfg : ParserConfig :=
  { directory := some "d" }

/-- C5 code-bug evidence, evaluated at the failing input: resolution
yields two files and the extraction body itself succeeds on the second
file, computing one record — so the claim (and the spec) says that
record reaches the sink with only the first file excluded.  But in the
run as the code actually behaves each awaited future raises the
coroutine-pickling `TypeError` (the dispatched `process_file` is an
`async def` submitted to a process pool), so regardless of per-file
success the aggregate is empty and the sink is called once with the
empty list: the record of the successfully processed file never
reaches the sink. -/
theorem c5_async_dispatch_bug :
    process_file c5fs "d/A2.xml" c5cfg =
      Except.ok [ { endTime := some "T", measInfoId := some "M", measObjLdn := some "L",
                    p := 9, value := PyValue.str "ok", measType := none } ]
    ∧ get_files_to_process c5fs c5cfg = Except.ok ["d/A1.xml", "d/A2.xml"]
    ∧ futureResult c5fs c5cfg "d/A1.xml" =
        Except.error "TypeError: cannot pickle coroutine object"
    ∧ futureResult c5fs c5cfg "d/A2.xml" =
        Except.error "TypeError: cannot pickle coroutine object"
    ∧ process_files_run c5fs c5cfg = Except.ok []
    ∧ sink_calls_run c5fs c5cfg = [[]] := by
  refine ⟨by decide, by decide, rfl, rfl, by decide, by decide⟩

/-- C6: on a file that raises no structural error, every surviving
reading yields a record — never dropped, never zeroed — whose value is
the float parse of its text when that parses (text 3.14 gives the
number 157/50, i.e. 3.14) and the raw text verbatim otherwise (a
missing text stays the Python `None`); the keep decision itself never
looks at the text. -/
theorem c6_value_parse_semantics (cfg : ParserConfig) (doc : XMLFile)
    (hok : fileOK cfg doc = true) :
    extractRecords cfg doc = Except.ok (specRecords cfg doc)
    ∧ (∀ mi ∈ doc.measInfos, keepMI cfg mi = true →
        ∀ mv ∈ mi.measValues, keepMV cfg mv = true →
        ∀ r ∈ mv.rs, keepR cfg r = true →
          emitRecord mi mv r ∈ specRecords cfg doc
          ∧ (emitRecord mi mv r).value = float_or_text r.text)
    ∧ (∀ rec ∈ specRecords cfg doc, ∃ mi mv r, rec = emitRecord mi mv r
        ∧ rec.value = float_or_text r.text)
    ∧ (∀ s q, pyFloat? s = some q → float_or_text (some s) = PyValue.num q)
    ∧ (∀ s, pyFloat? s = none → float_or_text (some s) = PyValue.str s)
    ∧ float_or_text none = PyValue.none
    ∧ float_or_text (some "3.14") = PyValue.num (157 / 50) := by
  refine ⟨extractRecords_ok cfg doc hok, ?_, ?_, ?_, ?_, rfl, ?_⟩
  · intro mi hmi hkmi mv hmv hkmv r hr hkr
    constructor
    · exact (mem_specRecords cfg doc (emitRecord mi mv r)).mpr
        ⟨mi, hmi, hkmi, mv, hmv, hkmv, r, hr, hkr, rfl⟩
    · rfl
  · intro rec hrec
    obtain ⟨mi, _, _, mv, _, _, r, _, _, hre⟩ := (mem_specRecords cfg doc rec).mp hrec
    exact ⟨mi, mv, r, hre, by rw [hre]; rfl⟩
  · intro s q h
    rw [float_or_text, h]
  · intro s h
    rw [float_or_text, h]
  · have h : pyFloat? "3.14" = some (mantissaVal [ '3' ] [ '1', '4' ]) := rfl
    have h3 : digitsVal [ '3' ] = 3 := rfl
    have h14 : digitsVal [ '1', '4' ] = 14 := rfl
    have hq : pyFloat? "3.14" = some (157 / 50) := by
      rw [h]
      rw [mantissaVal, h3, h14]
      norm_num
    rw [float_or_text, hq]

/-- Fixture for C6: one block with a numeric-text reading and a
non-numeric-text reading. -/
def c6doc : XMLFile :=
  { measInfos :=
      [ { measInfoId := some "M",
          granPeriod := some ({ endTime := some "T" }),
          measTypes := [],
          measValues :=
            [ { measObjLdn := some "L",
                rs := [ { p := some "1", text := some "3.14" },
                        { p := some "2", text := some "n/a" } ] } ] } ] }

/-- Closed instance of the C6 theorem at the fixture input. -/
theorem c6_value_parse_semantics_witness :
    fileOK ({} : ParserConfig) c6doc = true ∧
    (extractRecords ({} : ParserConfig) c6doc =
        Except.ok (specRecords ({} : ParserConfig) c6doc)
     ∧ (∀ mi ∈ c6doc.measInfos, keepMI ({} : ParserConfig) mi = true →
         ∀ mv ∈ mi.measValues, keepMV ({} : ParserConfig) mv = true →
         ∀ r ∈ mv.rs, keepR ({} : ParserConfig) r = true →
           emitRecord mi mv r ∈ specRecords ({} : ParserConfig) c6doc
           ∧ (emitRecord mi mv r).value = float_or_text r.text)
     ∧ (∀ rec ∈ specRecords ({} : ParserConfig) c6doc, ∃ mi mv r, rec = emitRecord mi mv r
         ∧ rec.value = float_or_text r.text)
     ∧ (∀ s q, pyFloat? s = some q → float_or_text (some s) = PyValue.num q)
     ∧ (∀ s, pyFloat? s = none → float_or_text (some s) = PyValue.str s)
     ∧ float_or_text none = PyValue.none
     ∧ float_or_text (some "3.14") = PyValue.num (157 / 50)) :=
  ⟨by decide, c6_value_parse_semantics {} c6doc (by decide)⟩

/-- C7: every emitted record's `measType` is the table lookup, under
the record's own `p` key, of the counter-name table of its enclosing
block and no other block; the table keeps the LAST declaration of a
duplicated index, and a key that is not declared in the block yields an
absent name (`none`), never an error. -/
theorem c7_meastype_lookup (cfg : ParserConfig) (doc : XMLFile)
    (hok : fileOK cfg doc = true) :
    extractRecords cfg doc = Except.ok (specRecords cfg doc)
    ∧ (∀ rec ∈ specRecords cfg doc,
        ∃ mi ∈ doc.measInfos, ∃ mv ∈ mi.measValues, ∃ r ∈ mv.rs,
          rec = emitRecord mi mv r ∧ rec.measType = dictGet (measTypeTable mi) r.p)
    ∧ (∀ tbl1 tbl2 : List (Option String × Option String), ∀ k v : Option String,
        (∀ kv ∈ tbl2, (kv.1 == k) = false) → dictGet (tbl1 ++ (k, v) :: tbl2) k = v)
    ∧ (∀ tbl : List (Option String × Option String), ∀ k : Option String,
        (∀ kv ∈ tbl, (kv.1 == k) = false) → dictGet tbl k = none) := by
  refine ⟨extractRecords_ok cfg doc hok, ?_, dictGet_last_wins, dictGet_not_found⟩
  intro rec hrec
  obtain ⟨mi, hmi, _, mv, hmv, _, r, hr, _, hre⟩ := (mem_specRecords cfg doc rec).mp hrec
  exact ⟨mi, hmi, mv, hmv, r, hr, hre, by rw [hre]; rfl⟩

/-- Fixture for C7: a block declaring the index 1 twice (the second
declaration must win) and a reading with the undeclared index 2; a
second block declares a different name for index 1 that must not leak
into the first block's records. -/
def c7doc : XMLFile :=
  { measInfos :=
      [ { measInfoId := some "M1",
          granPeriod := some ({ endTime := some "T1" }),
          measTypes := [ { p := some "1", text := some "early" },
                         { p := some "1", text := some "late" } ],
          measValues :=
            [ { measObjLdn := some "L",
                rs := [ { p := some "1", text := some "a" },
                        { p := some "2", text := some "b" } ] } ] },
        { measInfoId := some "M2",
          granPeriod := some ({ endTime := some "T2" }),
          measTypes := [ { p := some "1", text := some "other" } ],
          measValues := [] } ] }

/-- Closed instance of the C7 theorem at the fixture input, together
with the concrete lookups: the duplicated index resolves to the last
declaration and the undeclared index to an absent name. -/
theorem c7_meastype_lookup_witness :
    (fileOK ({} : ParserConfig) c7doc = true ∧
     (specRecords ({} : ParserConfig) c7doc).map PMRecord.measType = [some "late", none]) ∧
    (extractRecords ({} : ParserConfig) c7doc =
        Except.ok (specRecords ({} : ParserConfig) c7doc)
     ∧ (∀ rec ∈ specRecords ({} : ParserConfig) c7doc,
         ∃ mi ∈ c7doc.measInfos, ∃ mv ∈ mi.measValues, ∃ r ∈ mv.rs,
           rec = emitRecord mi mv r ∧ rec.measType = dictGet (measTypeTable mi) r.p)
     ∧ (∀ tbl1 tbl2 : List (Option String × Option String), ∀ k v : Option String,
         (∀ kv ∈ tbl2, (kv.1 == k) = false) → dictGet (tbl1 ++ (k, v) :: tbl2) k = v)
     ∧ (∀ tbl : List (Option String × Option String), ∀ k : Option String,
         (∀ kv ∈ tbl, (kv.1 == k) = false) → dictGet tbl k = none)) :=
  ⟨⟨by decide, by decide⟩, c7_meastype_lookup {} c7doc (by decide)⟩

/-- C8: on a well-formed file each of the four configurations (all
filters; each filter alone) extracts without error, a record is in the
combined extraction exactly when it is in all three single-filter
extractions, and a combined extraction in which nothing matches is the
empty sequence, not an error. -/
theorem c8_filters_conjunctive (cfg : ParserConfig) (doc : XMLFile)
    (hwf : wellFormedDoc doc = true) :
    extractRecords cfg doc = Except.ok (specRecords cfg doc)
    ∧ extractRecords (onlyMiFilter cfg) doc = Except.ok (specRecords (onlyMiFilter cfg) doc)
    ∧ extractRecords (onlyLdnFilter cfg) doc = Except.ok (specRecords (onlyLdnFilter cfg) doc)
    ∧ extractRecords (onlyPFilter cfg) doc = Except.ok (specRecords (onlyPFilter cfg) doc)
    ∧ (∀ rec : PMRecord, rec ∈ specRecords cfg doc ↔
        rec ∈ specRecords (onlyMiFilter cfg) doc
        ∧ rec ∈ specRecords (onlyLdnFilter cfg) doc
        ∧ rec ∈ specRecords (onlyPFilter cfg) doc)
    ∧ (specRecords cfg doc = [] → extractRecords cfg doc = Except.ok []) := by
  have h0 := extractRecords_ok cfg doc (fileOK_of_wellFormed cfg doc hwf)
  refine ⟨h0,
    extractRecords_ok (onlyMiFilter cfg) doc (fileOK_of_wellFormed _ doc hwf),
    extractRecords_ok (onlyLdnFilter cfg) doc (fileOK_of_wellFormed _ doc hwf),
    extractRecords_ok (onlyPFilter cfg) doc (fileOK_of_wellFormed _ doc hwf),
    ?_, ?_⟩
  · intro rec
    constructor
    · intro h
      obtain ⟨mi, hmi, hkmi, mv, hmv, hkmv, r, hr, hkr, hre⟩ :=
        (mem_specRecords cfg doc rec).mp h
      refine ⟨?_, ?_, ?_⟩
      · exact (mem_specRecords _ doc rec).mpr
          ⟨mi, hmi, by rw [keepMI_onlyMi]; exact hkmi, mv, hmv, keepMV_onlyMi cfg mv,
           r, hr, keepR_onlyMi cfg r, hre⟩
      · exact (mem_specRecords _ doc rec).mpr
          ⟨mi, hmi, keepMI_onlyLdn cfg mi, mv, hmv, by rw [keepMV_onlyLdn]; exact hkmv,
           r, hr, keepR_onlyLdn cfg r, hre⟩
      · exact (mem_specRecords _ doc rec).mpr
          ⟨mi, hmi, keepMI_onlyP cfg mi, mv, hmv, keepMV_onlyP cfg mv,
           r, hr, by rw [keepR_onlyP]; exact hkr, hre⟩
    · rintro ⟨hMi, hLdn, hP⟩
      obtain ⟨mi1, hmi1, hkmi1, mv1, hmv1, hkmv1, r1, hr1, hkr1, hre1⟩ :=
        (mem_specRecords _ doc rec).mp hMi
      obtain ⟨mi2, hmi2, hkmi2, mv2, hmv2, hkmv2, r2, hr2, hkr2, hre2⟩ :=
        (mem_specRecords _ doc rec).mp hLdn
      obtain ⟨mi3, hmi3, hkmi3, mv3, hmv3, hkmv3, r3, hr3, hkr3, hre3⟩ :=
        (mem_specRecords _ doc rec).mp hP
      have hid : mi3.measInfoId = mi1.measInfoId := by
        have e1 : rec.measInfoId = mi1.measInfoId := by rw [hre1]; rfl
        have e3 : rec.measInfoId = mi3.measInfoId := by rw [hre3]; rfl
        rw [← e3, e1]
      have hkmi : keepMI cfg mi3 = true := by
        rw [keepMI_congr cfg mi3 mi1 hid, ← keepMI_onlyMi cfg mi1]
        exact hkmi1
      have hldn : mv3.measObjLdn = mv2.measObjLdn := by
        have e2 : rec.measObjLdn = mv2.measObjLdn := by rw [hre2]; rfl
        have e3 : rec.measObjLdn = mv3.measObjLdn := by rw [hre3]; rfl
        rw [← e3, e2]
      have hkmv : keepMV cfg mv3 = true := by
        rw [keepMV_congr cfg mv3 mv2 hldn, ← keepMV_onlyLdn cfg mv2]
        exact hkmv2
      have hkr : keepR cfg r3 = true := by
        rw [← keepR_onlyP cfg r3]
        exact hkr3
      exact (mem_specRecords cfg doc rec).mpr
        ⟨mi3, hmi3, hkmi, mv3, hmv3, hkmv, r3, hr3, hkr, hre3⟩
  · intro hempty
    rw [h0, hempty]

/-- Fixture for C8: two blocks, two value groups, readings with two
distinct indices — so every filter dimension has matching and
non-matching elements. -/
def c8doc : XMLFile :=
  { measInfos :=
      [ { measInfoId := some "M1",
          granPeriod := some ({ endTime := some "T1" }),
          measTypes := [ { p := some "1", text := some "n1" } ],
          measValues :=
            [ { measObjLdn := some "L1",
                rs := [ { p := some "1", text := some "a" },
                        { p := some "2", text := some "b" } ] },
              { measObjLdn := some "L2",
                rs := [ { p := some "1", text := some "c" } ] } ] },
        { measInfoId := some "M2",
          granPeriod := some ({ endTime := some "T2" }),
          measTypes := [],
          measValues :=
            [ { measObjLdn := some "L1",
                rs := [ { p := some "1", text := some "d" } ] } ] } ] }

/-- Fixture for C8: all three filters set at once. -/
def c8cfg : ParserConfig :=
  { measInfoId := some "M1", p_value := some 1, objLdn_list := ["L1"] }

/-- Closed instance of the C8 theorem at the fixture input. -/
theorem c8_filters_conjunctive_witness :
    wellFormedDoc c8doc = true ∧
    (extractRecords c8cfg c8doc = Except.ok (specRecords c8cfg c8doc)
     ∧ extractRecords (onlyMiFilter c8cfg) c8doc =
         Except.ok (specRecords (onlyMiFilter c8cfg) c8doc)
     ∧ extractRecords (onlyLdnFilter c8cfg) c8doc =
         Except.ok (specRecords (onlyLdnFilter c8cfg) c8doc)
     ∧ extractRecords (onlyPFilter c8cfg) c8doc =
         Except.ok (specRecords (onlyPFilter c8cfg) c8doc)
     ∧ (∀ rec : PMRecord, rec ∈ specRecords c8cfg c8doc ↔
         rec ∈ specRecords (onlyMiFilter c8cfg) c8doc
         ∧ rec ∈ specRecords (onlyLdnFilter c8cfg) c8doc
         ∧ rec ∈ specRecords (onlyPFilter c8cfg) c8doc)
     ∧ (specRecords c8cfg c8doc = [] → extractRecords c8cfg c8doc = Except.ok [])) :=
  ⟨by decide, c8_filters_conjunctive c8cfg c8doc (by decide)⟩

/-- C9: directory mode whose pattern matches no entry fails with the
no-files message while single-file mode naming a nonexistent path fails
with the file-not-found message — two distinguishable errors, and in
neither run is the sink called. -/
theorem c9_distinct_resolution_errors (fs : FileSystem) (cfg1 cfg2 : ParserConfig)
    (f d : String)
    (h1 : cfg1.single_file = some f) (hf : ¬ (f = "")) (hnex : fs.pathExists f = false)
    (h2s : strTruthy cfg2.single_file = false) (h2 : cfg2.directory = some d)
    (hd : ¬ (d = "")) (hex : fs.pathExists d = true)
    (hzero : (fs.listdir d).filter (fun n => rmatch cfg2.file_pattern n.toList) = []) :
    process_files fs cfg1 = Except.error (PMMsg.fileNotFound f)
    ∧ sink_calls fs cfg1 = []
    ∧ process_files fs cfg2 = Except.error PMMsg.noFilesFound
    ∧ sink_calls fs cfg2 = []
    ∧ ¬ (PMMsg.fileNotFound f = PMMsg.noFilesFound) := by
  have hfe : (f == "") = false := by
    cases hb : (f == "")
    · rfl
    · exact absurd (of_decide_eq_true (by simpa using hb)) hf
  have hres1 : get_files_to_process fs cfg1 = Except.error (PMMsg.fileNotFound f) := by
    rw [get_files_to_process, h1]
    show (if (f == "") = true then getFilesRest fs cfg1 else getFilesSingle fs f) = _
    rw [hfe, if_neg (by simp)]
    rw [getFilesSingle, hnex]
    rfl
  have hrest : get_files_to_process fs cfg2 = getFilesRest fs cfg2 := by
    rw [get_files_to_process]
    cases hsf : cfg2.single_file with
    | none => rfl
    | some g =>
      rw [hsf, strTruthy] at h2s
      have hg : (g == "") = true := by
        cases hb : (g == "")
        · rw [hb] at h2s; cases h2s
        · rfl
      simp [hg]
  have hde : (d == "") = false := by
    cases hb : (d == "")
    · rfl
    · exact absurd (of_decide_eq_true (by simpa using hb)) hd
  have hres2 : get_files_to_process fs cfg2 = Except.ok [] := by
    rw [hrest, getFilesRest, h2]
    show (if (d == "") = true then Except.error PMMsg.noInputSpecified
          else getFilesDir fs d cfg2.file_pattern) = _
    rw [hde, if_neg (by simp)]
    rw [getFilesDir, hex, if_pos rfl, hzero]
    rfl
  refine ⟨?_, ?_, ?_, ?_, by intro h; cases h⟩
  · rw [process_files, hres1]
  · rw [sink_calls, process_files, hres1]
  · rw [process_files, hres2]
    rfl
  · rw [sink_calls, process_files, hres2]
    rfl

/-- Fixture for C9: one file system exhibiting both failure modes — a
directory dir whose entries match nothing, and no file named
missing.xml. -/
def c9fs : FileSystem :=
  { pathExists := fun p => p == "dir",
    listdir := fun p => if p == "dir" then ["B1.xml", "notes.txt"] else [],
    parse := fun _ => Except.error "never reached" }

/-- Fixture for C9: single-file mode naming a nonexistent path. -/
def c9cfg1 : ParserConfig :=
  { single_file := some "missing.xml" }

/-- Fixture for C9: directory mode over the matchless directory. -/
def c9cfg2 : ParserConfig :=
  { directory := some "dir" }

/-- Closed instance of the C9 theorem at the fixture input. -/
theorem c9_distinct_resolution_errors_witness :
    (c9cfg1.single_file = some "missing.xml" ∧ ¬ ("missing.xml" = "") ∧
     c9fs.pathExists "missing.xml" = false ∧ strTruthy c9cfg2.single_file = false ∧
     c9cfg2.directory = some "dir" ∧ ¬ ("dir" = "") ∧ c9fs.pathExists "dir" = true ∧
     (c9fs.listdir "dir").filter (fun n => rmatch c9cfg2.file_pattern n.toList) = []) ∧
    (process_files c9fs c9cfg1 = Except.error (PMMsg.fileNotFound "missing.xml")
     ∧ sink_calls c9fs c9cfg1 = []
     ∧ process_files c9fs c9cfg2 = Except.error PMMsg.noFilesFound
     ∧ sink_calls c9fs c9cfg2 = []
     ∧ ¬ (PMMsg.fileNotFound "missing.xml" = PMMsg.noFilesFound)) :=
  ⟨⟨by decide, by decide, by decide, by decide, by decide, by decide, by decide, by decide⟩,
   c9_distinct_resolution_errors c9fs c9cfg1 c9cfg2 "missing.xml" "dir" (by decide)
     (by decide) (by decide) (by decide) (by decide) (by decide) (by decide) (by decide)⟩

end PM
